import Mathlib

/-!
Verification of the version-checker core against its sources.

Part 1 models `pkg/metrics/metrics.go`: the metrics cache and the exported
gauge collection.  The prometheus `GaugeVec` keyed by its full label tuple is
modelled as a partial map from label tuples to gauge values; since the code
only ever writes the values `0.0` and `1.0`, gauge values are modelled in `ℚ`.
The container cache (`map[string]cacheItem`) is a partial map from the string
index to cache items.

Part 2 models `pkg/client/docker/manifest/manifest.go`: the response handling
of `Digest`, the auth-URL construction of `authUrl` (including Go's
`url.Values.Encode` query escaping), and the request-header construction of
`getAuthToken` and `Digest`.
-/

namespace VersionChecker

/-- One monitored identity: `(namespace, pod, container)`. -/
abbrev Ident := String × String × String

/-- `cacheItem` from metrics.go: the fields remembered to later delete a
series. -/
structure CacheItem where
  image : String
  currentVersion : String
  latestVersion : String
  os : String
  arch : String
deriving DecidableEq, Repr

/-- `Entry` from metrics.go: one full label set plus the boolean value. -/
structure Entry where
  Namespace : String
  Pod : String
  Container : String
  ImageURL : String
  IsLatest : Bool
  CurrentVersion : String
  LatestVersion : String
  OS : String
  Arch : String
deriving DecidableEq, Repr

/-- The full prometheus label tuple of the gauge
`version_checker_is_latest_version`. -/
structure Labels where
  «namespace» : String
  pod : String
  container : String
  image : String
  current_version : String
  latest_version : String
  architecture : String
  os : String
deriving DecidableEq, Repr

/-- `buildLabels` from metrics.go: `architecture` comes from `entry.Arch` and
`os` from `entry.OS`. -/
def buildLabels (e : Entry) : Labels :=
  ⟨e.Namespace, e.Pod, e.Container, e.ImageURL, e.CurrentVersion,
    e.LatestVersion, e.Arch, e.OS⟩

/-- `latestImageIndex` from metrics.go:
`strings.Join([]string{namespace, pod, container}, "")`. -/
def latestImageIndex (ns pod container : String) : String :=
  String.join [ns, pod, container]

/-- The `Entry` literal built inside `RemoveImage` from a cached item;
`IsLatest` is left at its zero value `false` in the Go struct literal. -/
def entryOfItem (ns pod container : String) (item : CacheItem) : Entry :=
  ⟨ns, pod, container, item.image, false, item.currentVersion,
    item.latestVersion, item.os, item.arch⟩

/-- The gauge value set by `AddImage`: `1.0` if `IsLatest` else `0.0`. -/
def isLatestValue (e : Entry) : ℚ := if e.IsLatest then 1 else 0

/-- The mutable state of a `Metrics` value: the container cache map and the
gauge collection (a partial map from full label tuples to values). -/
@[ext] structure MetricsState where
  containerCache : String → Option CacheItem
  containerImageVersion : Labels → Option ℚ

/-- The state produced by `New`: empty cache, empty gauge collection. -/
def freshMetrics : MetricsState := ⟨fun _ => none, fun _ => none⟩

/-- `RemoveImage` from metrics.go: look up the cache at the concatenated
index; when absent return unchanged, otherwise delete the series whose labels
are rebuilt from the cached item and remove the cache entry. -/
def RemoveImage (m : MetricsState) (ns pod container : String) : MetricsState :=
  match m.containerCache (latestImageIndex ns pod container) with
  | none => m
  | some item =>
    { containerCache := fun k =>
        if k = latestImageIndex ns pod container then none
        else m.containerCache k
      containerImageVersion := fun l =>
        if l = buildLabels (entryOfItem ns pod container item) then none
        else m.containerImageVersion l }

/-- `AddImage` from metrics.go: first `RemoveImage` on the entry's identity,
then set the gauge under the entry's labels and store the cache item under the
concatenated index. -/
def AddImage (m : MetricsState) (e : Entry) : MetricsState :=
  { containerCache := fun k =>
      if k = latestImageIndex e.Namespace e.Pod e.Container then
        some ⟨e.ImageURL, e.CurrentVersion, e.LatestVersion, e.OS, e.Arch⟩
      else (RemoveImage m e.Namespace e.Pod e.Container).containerCache k
    containerImageVersion := fun l =>
      if l = buildLabels e then some (isLatestValue e)
      else (RemoveImage m e.Namespace e.Pod e.Container).containerImageVersion l }

/-- An operation against the metrics cache. -/
inductive MetricsOp
  | add (e : Entry)
  | remove (ns pod container : String)
deriving DecidableEq, Repr

def applyOp (m : MetricsState) : MetricsOp → MetricsState
  | .add e => AddImage m e
  | .remove ns pod container => RemoveImage m ns pod container

def runOps (m : MetricsState) (ops : List MetricsOp) : MetricsState :=
  ops.foldl applyOp m

/-- The identity an operation addresses. -/
def opIdent : MetricsOp → Ident
  | .add e => (e.Namespace, e.Pod, e.Container)
  | .remove ns pod container => (ns, pod, container)

def identIndex (i : Ident) : String := latestImageIndex i.1 i.2.1 i.2.2

def labelIdent (l : Labels) : Ident := (l.«namespace», l.pod, l.container)

def itemOfLabels (l : Labels) : CacheItem :=
  ⟨l.image, l.current_version, l.latest_version, l.os, l.architecture⟩

/-- At most one live gauge series per monitored identity. -/
def atMostOnePerIdentity (m : MetricsState) : Prop :=
  ∀ l1 l2 : Labels, m.containerImageVersion l1 ≠ none →
    m.containerImageVersion l2 ≠ none → labelIdent l1 = labelIdent l2 → l1 = l2

/-! Evaluation lemmas for the two operations. -/

theorem AddImage_series_eval (m : MetricsState) (e : Entry) (l : Labels) :
    (AddImage m e).containerImageVersion l =
      if l = buildLabels e then some (isLatestValue e)
      else (RemoveImage m e.Namespace e.Pod e.Container).containerImageVersion l := rfl

theorem AddImage_cache_eval (m : MetricsState) (e : Entry) (k : String) :
    (AddImage m e).containerCache k =
      if k = latestImageIndex e.Namespace e.Pod e.Container then
        some ⟨e.ImageURL, e.CurrentVersion, e.LatestVersion, e.OS, e.Arch⟩
      else (RemoveImage m e.Namespace e.Pod e.Container).containerCache k := rfl

theorem RemoveImage_eval_none (m : MetricsState) (ns pod container : String)
    (h : m.containerCache (latestImageIndex ns pod container) = none) :
    RemoveImage m ns pod container = m := by
  unfold RemoveImage
  rw [h]

theorem RemoveImage_eval_some (m : MetricsState) (ns pod container : String)
    (item : CacheItem)
    (h : m.containerCache (latestImageIndex ns pod container) = some item) :
    RemoveImage m ns pod container =
      { containerCache := fun k =>
          if k = latestImageIndex ns pod container then none
          else m.containerCache k
        containerImageVersion := fun l =>
          if l = buildLabels (entryOfItem ns pod container item) then none
          else m.containerImageVersion l } := by
  unfold RemoveImage
  rw [h]

/-- After `RemoveImage`, the cache never holds an entry at the removed
index. -/
theorem RemoveImage_cache_self (m : MetricsState) (ns pod container : String) :
    (RemoveImage m ns pod container).containerCache
      (latestImageIndex ns pod container) = none := by
  cases h : m.containerCache (latestImageIndex ns pod container) with
  | none => rw [RemoveImage_eval_none m ns pod container h]; exact h
  | some item => rw [RemoveImage_eval_some m ns pod container item h]; simp

/-- C8: there exist two distinct monitored identities whose concatenated cache
keys coincide, so `latestImageIndex` can alias distinct identities whose
component boundaries shift. -/
theorem latestImageIndex_aliases_distinct_identities :
    ∃ i1 i2 : Ident, i1 ≠ i2 ∧ identIndex i1 = identIndex i2 :=
  ⟨("a", "bc", "x"), ("ab", "c", "x"), by decide, rfl⟩

/-- C9: when no cache entry exists for the identity, `RemoveImage` leaves the
whole state (cache map and series set) unchanged, and `RemoveImage` is
idempotent on every state. -/
theorem removeImage_noop_and_idempotent (m : MetricsState)
    (ns pod container : String) :
    (m.containerCache (latestImageIndex ns pod container) = none →
      RemoveImage m ns pod container = m) ∧
    RemoveImage (RemoveImage m ns pod container) ns pod container =
      RemoveImage m ns pod container := by
  constructor
  · intro h
    exact RemoveImage_eval_none m ns pod container h
  · exact RemoveImage_eval_none _ ns pod container
      (RemoveImage_cache_self m ns pod container)

/-- Witness for C9: on the fresh state the hypothesis holds and `RemoveImage`
is a no-op. -/
theorem removeImage_noop_and_idempotent_witness :
    freshMetrics.containerCache (latestImageIndex "ns" "pod" "ctr") = none ∧
    RemoveImage freshMetrics "ns" "pod" "ctr" = freshMetrics :=
  ⟨rfl, (removeImage_noop_and_idempotent freshMetrics "ns" "pod" "ctr").1 rfl⟩

/-- Rebuilding labels from the cache item that `AddImage` stores for `e`
yields exactly `e`'s labels (`buildLabels` ignores `IsLatest`). -/
theorem buildLabels_entryOfItem_self (e : Entry) :
    buildLabels (entryOfItem e.Namespace e.Pod e.Container
      ⟨e.ImageURL, e.CurrentVersion, e.LatestVersion, e.OS, e.Arch⟩) =
    buildLabels e := rfl

/-- C3: `AddImage(e)` then `RemoveImage` on `e`'s identity leaves no series
under `e`'s label set and no cache entry for the identity; when the identity
was absent before (no cache entry, no series under `e`'s labels), the whole
state is restored exactly. -/
theorem addImage_removeImage_roundTrip (m : MetricsState) (e : Entry) :
    (RemoveImage (AddImage m e) e.Namespace e.Pod
        e.Container).containerImageVersion (buildLabels e) = none ∧
    (RemoveImage (AddImage m e) e.Namespace e.Pod e.Container).containerCache
      (latestImageIndex e.Namespace e.Pod e.Container) = none ∧
    (m.containerCache (latestImageIndex e.Namespace e.Pod e.Container) = none →
      m.containerImageVersion (buildLabels e) = none →
      RemoveImage (AddImage m e) e.Namespace e.Pod e.Container = m) := by
  have hc : (AddImage m e).containerCache
      (latestImageIndex e.Namespace e.Pod e.Container) =
      some ⟨e.ImageURL, e.CurrentVersion, e.LatestVersion, e.OS, e.Arch⟩ := by
    rw [AddImage_cache_eval]
    simp
  rw [RemoveImage_eval_some _ _ _ _ _ hc]
  refine ⟨?_, ?_, ?_⟩
  · show (if buildLabels e = buildLabels (entryOfItem e.Namespace e.Pod
        e.Container ⟨e.ImageURL, e.CurrentVersion, e.LatestVersion, e.OS,
          e.Arch⟩) then none else (AddImage m e).containerImageVersion
            (buildLabels e)) = none
    rw [buildLabels_entryOfItem_self, if_pos rfl]
  · show (if latestImageIndex e.Namespace e.Pod e.Container =
        latestImageIndex e.Namespace e.Pod e.Container then none
      else (AddImage m e).containerCache
        (latestImageIndex e.Namespace e.Pod e.Container)) = none
    rw [if_pos rfl]
  · intro h1 h2
    have hrm := RemoveImage_eval_none m e.Namespace e.Pod e.Container h1
    apply MetricsState.ext
    · funext k
      show (if k = latestImageIndex e.Namespace e.Pod e.Container then none
        else (AddImage m e).containerCache k) = m.containerCache k
      by_cases hk : k = latestImageIndex e.Namespace e.Pod e.Container
      · rw [if_pos hk, hk, h1]
      · rw [if_neg hk, AddImage_cache_eval, if_neg hk, hrm]
    · funext l
      show (if l = buildLabels (entryOfItem e.Namespace e.Pod e.Container
          ⟨e.ImageURL, e.CurrentVersion, e.LatestVersion, e.OS, e.Arch⟩)
        then none else (AddImage m e).containerImageVersion l) =
        m.containerImageVersion l
      rw [buildLabels_entryOfItem_self]
      by_cases hl : l = buildLabels e
      · rw [if_pos hl, hl, h2]
      · rw [if_neg hl, AddImage_series_eval, if_neg hl, hrm]

/-- Witness for C3: on the fresh state with a concrete entry, both
restoration hypotheses hold and the round trip returns the fresh state. -/
theorem addImage_removeImage_roundTrip_witness :
    freshMetrics.containerCache (latestImageIndex "n" "p" "c") = none ∧
    freshMetrics.containerImageVersion
      (buildLabels ⟨"n", "p", "c", "img", true, "v", "w", "o", "a"⟩) = none ∧
    RemoveImage (AddImage freshMetrics
      ⟨"n", "p", "c", "img", true, "v", "w", "o", "a"⟩) "n" "p" "c" =
      freshMetrics :=
  ⟨rfl, rfl,
    (addImage_removeImage_roundTrip freshMetrics
      ⟨"n", "p", "c", "img", true, "v", "w", "o", "a"⟩).2.2 rfl rfl⟩

/-- C2: on a fresh cache, `AddImage(A)` then `AddImage(B)` for the same
identity but different version labels leaves exactly one series — `B`'s label
set with `B`'s gauge value — while `A`'s label set is absent, and the cache
entry holds `B`'s fields. -/
theorem addImage_upsert_replaces (A B : Entry)
    (h1 : A.Namespace = B.Namespace) (h2 : A.Pod = B.Pod)
    (h3 : A.Container = B.Container)
    (hdiff : A.ImageURL ≠ B.ImageURL ∨ A.CurrentVersion ≠ B.CurrentVersion ∨
      A.LatestVersion ≠ B.LatestVersion) :
    (AddImage (AddImage freshMetrics A) B).containerImageVersion
        (buildLabels B) = some (isLatestValue B) ∧
    (AddImage (AddImage freshMetrics A) B).containerImageVersion
        (buildLabels A) = none ∧
    (∀ l : Labels, l ≠ buildLabels B →
      (AddImage (AddImage freshMetrics A) B).containerImageVersion l = none) ∧
    (AddImage (AddImage freshMetrics A) B).containerCache
        (latestImageIndex B.Namespace B.Pod B.Container) =
      some ⟨B.ImageURL, B.CurrentVersion, B.LatestVersion, B.OS, B.Arch⟩ := by
  obtain ⟨an, ap, ac, ai, al, acv, alv, ao, ar⟩ := A
  obtain ⟨bn, bp, bc, bi, bl, bcv, blv, bo, br⟩ := B
  simp only at h1 h2 h3 hdiff
  subst h1
  subst h2
  subst h3
  have hAB : buildLabels ⟨an, ap, ac, ai, al, acv, alv, ao, ar⟩ ≠
      buildLabels ⟨an, ap, ac, bi, bl, bcv, blv, bo, br⟩ := by
    intro h
    simp only [buildLabels, Labels.mk.injEq] at h
    rcases hdiff with hd | hd | hd
    · exact hd h.2.2.2.1
    · exact hd h.2.2.2.2.1
    · exact hd h.2.2.2.2.2.1
  have hc1 : (AddImage freshMetrics
      ⟨an, ap, ac, ai, al, acv, alv, ao, ar⟩).containerCache
      (latestImageIndex an ap ac) = some ⟨ai, acv, alv, ao, ar⟩ := by
    rw [AddImage_cache_eval]
    simp
  have hrm2 := RemoveImage_eval_some
    (AddImage freshMetrics ⟨an, ap, ac, ai, al, acv, alv, ao, ar⟩)
    an ap ac ⟨ai, acv, alv, ao, ar⟩ hc1
  have hdel : buildLabels (entryOfItem an ap ac ⟨ai, acv, alv, ao, ar⟩) =
      buildLabels ⟨an, ap, ac, ai, al, acv, alv, ao, ar⟩ := rfl
  refine ⟨?_, ?_, ?_, ?_⟩
  · rw [AddImage_series_eval, if_pos rfl]
  · rw [AddImage_series_eval, if_neg hAB, hrm2]
    show (if buildLabels ⟨an, ap, ac, ai, al, acv, alv, ao, ar⟩ =
        buildLabels (entryOfItem an ap ac ⟨ai, acv, alv, ao, ar⟩) then none
      else (AddImage freshMetrics
        ⟨an, ap, ac, ai, al, acv, alv, ao, ar⟩).containerImageVersion
          (buildLabels ⟨an, ap, ac, ai, al, acv, alv, ao, ar⟩)) = none
    rw [hdel, if_pos rfl]
  · intro l hl
    rw [AddImage_series_eval, if_neg hl, hrm2]
    show (if l = buildLabels (entryOfItem an ap ac ⟨ai, acv, alv, ao, ar⟩)
      then none else (AddImage freshMetrics
        ⟨an, ap, ac, ai, al, acv, alv, ao, ar⟩).containerImageVersion l) = none
    rw [hdel]
    by_cases hla : l = buildLabels ⟨an, ap, ac, ai, al, acv, alv, ao, ar⟩
    · rw [if_pos hla]
    · rw [if_neg hla, AddImage_series_eval, if_neg hla,
        RemoveImage_eval_none freshMetrics an ap ac rfl]
      rfl
  · rw [AddImage_cache_eval, if_pos rfl]

/-- Witness for C2: two concrete entries sharing an identity but differing in
all three version labels. -/
theorem addImage_upsert_replaces_witness :
    ("i1" : String) ≠ "i2" ∧
    (AddImage (AddImage freshMetrics
        ⟨"n", "p", "c", "i1", false, "v1", "w1", "o1", "a1"⟩)
        ⟨"n", "p", "c", "i2", true, "v2", "w2", "o2", "a2"⟩).containerImageVersion
      (buildLabels ⟨"n", "p", "c", "i2", true, "v2", "w2", "o2", "a2"⟩) =
      some (isLatestValue ⟨"n", "p", "c", "i2", true, "v2", "w2", "o2", "a2"⟩) :=
  ⟨by decide,
    (addImage_upsert_replaces
      ⟨"n", "p", "c", "i1", false, "v1", "w1", "o1", "a1"⟩
      ⟨"n", "p", "c", "i2", true, "v2", "w2", "o2", "a2"⟩
      rfl rfl rfl (Or.inl (by decide))).1⟩

/-! C1: the per-identity uniqueness invariant.  It fails on the code because
`latestImageIndex` concatenates the identity components without a separator,
so two distinct identities can share one cache slot and `RemoveImage` then
deletes the wrong label set.  Under a non-aliasing side condition the
invariant is provable via a coherence invariant tying every live series to
the cache entry of its identity. -/

/-- No two identities in `S` share a concatenated cache index. -/
def NonAliasingOn (S : List Ident) : Prop :=
  ∀ i1 ∈ S, ∀ i2 ∈ S, identIndex i1 = identIndex i2 → i1 = i2

/-- Every live series carries an identity from `S` and its non-identity
labels agree with the cache entry stored for that identity. -/
def Coherent (S : List Ident) (m : MetricsState) : Prop :=
  ∀ l : Labels, m.containerImageVersion l ≠ none →
    labelIdent l ∈ S ∧
    m.containerCache (identIndex (labelIdent l)) = some (itemOfLabels l)

/-- A label tuple is determined by its identity and its cache item. -/
theorem labels_eta (l : Labels) :
    buildLabels (entryOfItem l.«namespace» l.pod l.container (itemOfLabels l)) =
      l := rfl

theorem coherent_fresh (S : List Ident) : Coherent S freshMetrics :=
  fun _ hl => absurd rfl hl

theorem nonAliasingOn_mono {S T : List Ident} (hsub : T ⊆ S)
    (hS : NonAliasingOn S) : NonAliasingOn T :=
  fun i1 h1 i2 h2 h => hS i1 (hsub h1) i2 (hsub h2) h

theorem coherent_remove (S : List Ident) (hS : NonAliasingOn S)
    (m : MetricsState) (hm : Coherent S m) (ns pod container : String)
    (hop : (ns, pod, container) ∈ S) :
    Coherent S (RemoveImage m ns pod container) := by
  cases h : m.containerCache (latestImageIndex ns pod container) with
  | none => rw [RemoveImage_eval_none m ns pod container h]; exact hm
  | some item =>
    rw [RemoveImage_eval_some m ns pod container item h]
    intro l hl
    dsimp only at hl ⊢
    by_cases hld : l = buildLabels (entryOfItem ns pod container item)
    · rw [if_pos hld] at hl
      exact absurd rfl hl
    · rw [if_neg hld] at hl
      obtain ⟨hmem, hcache⟩ := hm l hl
      refine ⟨hmem, ?_⟩
      by_cases hidx : identIndex (labelIdent l) = latestImageIndex ns pod container
      · exfalso
        have hident : labelIdent l = (ns, pod, container) :=
          hS _ hmem _ hop hidx
        rw [hidx, h] at hcache
        have hitem : itemOfLabels l = item :=
          (Option.some.injEq _ _).mp hcache.symm
        apply hld
        obtain ⟨h1, h2, h3⟩ : l.«namespace» = ns ∧ l.pod = pod ∧
            l.container = container := by
          simpa [labelIdent, Prod.ext_iff] using hident
        calc l = buildLabels (entryOfItem l.«namespace» l.pod l.container
                  (itemOfLabels l)) := (labels_eta l).symm
          _ = buildLabels (entryOfItem ns pod container item) := by
              rw [h1, h2, h3, hitem]
      · rw [if_neg hidx]
        exact hcache

theorem coherent_add (S : List Ident) (hS : NonAliasingOn S)
    (m : MetricsState) (hm : Coherent S m) (e : Entry)
    (hop : (e.Namespace, e.Pod, e.Container) ∈ S) :
    Coherent S (AddImage m e) := by
  have hm' : Coherent S (RemoveImage m e.Namespace e.Pod e.Container) :=
    coherent_remove S hS m hm _ _ _ hop
  intro l hl
  rw [AddImage_series_eval] at hl
  by_cases hle : l = buildLabels e
  · subst hle
    refine ⟨hop, ?_⟩
    rw [AddImage_cache_eval,
      if_pos (show identIndex (labelIdent (buildLabels e)) =
        latestImageIndex e.Namespace e.Pod e.Container from rfl)]
    rfl
  · rw [if_neg hle] at hl
    obtain ⟨hmem, hcache⟩ := hm' l hl
    refine ⟨hmem, ?_⟩
    rw [AddImage_cache_eval]
    by_cases hidx : identIndex (labelIdent l) =
        latestImageIndex e.Namespace e.Pod e.Container
    · exfalso
      rw [hidx, RemoveImage_cache_self] at hcache
      exact Option.noConfusion hcache
    · rw [if_neg hidx]
      exact hcache

theorem atMostOne_of_coherent (S : List Ident) (m : MetricsState)
    (h : Coherent S m) : atMostOnePerIdentity m := by
  intro l1 l2 h1 h2 hid
  obtain ⟨_, hc1⟩ := h l1 h1
  obtain ⟨_, hc2⟩ := h l2 h2
  rw [hid, hc2] at hc1
  have hitem : itemOfLabels l2 = itemOfLabels l1 :=
    (Option.some.injEq _ _).mp hc1
  obtain ⟨e1, e2, e3⟩ : l1.«namespace» = l2.«namespace» ∧ l1.pod = l2.pod ∧
      l1.container = l2.container := by
    simpa [labelIdent, Prod.ext_iff] using hid
  calc l1 = buildLabels (entryOfItem l1.«namespace» l1.pod l1.container
            (itemOfLabels l1)) := (labels_eta l1).symm
    _ = buildLabels (entryOfItem l2.«namespace» l2.pod l2.container
            (itemOfLabels l2)) := by rw [e1, e2, e3, hitem]
    _ = l2 := labels_eta l2

theorem runOps_coherent (S : List Ident) (hS : NonAliasingOn S) :
    ∀ (ops : List MetricsOp) (m : MetricsState), Coherent S m →
      (∀ op ∈ ops, opIdent op ∈ S) → Coherent S (runOps m ops) := by
  intro ops
  induction ops with
  | nil => intro m hm _; exact hm
  | cons op rest ih =>
    intro m hm hall
    have h1 : Coherent S (applyOp m op) := by
      cases op with
      | add e => exact coherent_add S hS m hm e (hall _ (List.mem_cons_self _ _))
      | remove ns pod container =>
        exact coherent_remove S hS m hm ns pod container
          (hall _ (List.mem_cons_self _ _))
    exact ih (applyOp m op) h1 fun op' h' => hall op' (List.mem_cons_of_mem _ h')

/-- Counterexample to C1 as stated: three `AddImage` calls — the second for a
distinct identity whose concatenated key collides with the first — leave two
live series for the identity `("a", "b", "c")`. -/
theorem aliasing_breaks_series_uniqueness :
    ¬ atMostOnePerIdentity (runOps freshMetrics
      [.add ⟨"a", "b", "c", "i1", false, "v1", "w1", "o1", "r1"⟩,
       .add ⟨"ab", "c", "", "i2", false, "v2", "w2", "o2", "r2"⟩,
       .add ⟨"a", "b", "c", "i3", false, "v3", "w3", "o3", "r3"⟩]) := by
  intro h
  have h2 := h (buildLabels ⟨"a", "b", "c", "i1", false, "v1", "w1", "o1", "r1"⟩)
      (buildLabels ⟨"a", "b", "c", "i3", false, "v3", "w3", "o3", "r3"⟩)
      (by decide) (by decide) (by decide)
  exact absurd h2 (by decide)

/-- C1 (amended): provided no two identities appearing in the operation
sequence share a concatenated cache key, then after each completed operation
(every split of the sequence into an executed part and a remainder) at most
one exported series exists per monitored identity. -/
theorem series_uniqueness_of_nonAliasing (ops : List MetricsOp)
    (h : NonAliasingOn (ops.map opIdent)) :
    ∀ p rest : List MetricsOp, ops = p ++ rest →
      atMostOnePerIdentity (runOps freshMetrics p) := by
  intro p rest hsplit
  subst hsplit
  have hsub : p.map opIdent ⊆ (p ++ rest).map opIdent := by
    intro x hx
    rw [List.map_append]
    exact List.mem_append_left _ hx
  have hp : NonAliasingOn (p.map opIdent) := nonAliasingOn_mono hsub h
  exact atMostOne_of_coherent _ _
    (runOps_coherent (p.map opIdent) hp p freshMetrics
      (coherent_fresh _) fun op hop => List.mem_map_of_mem _ hop)

/-- Witness for the amended C1: a concrete non-aliasing sequence — two upserts
for the same identity. -/
theorem series_uniqueness_of_nonAliasing_witness :
    NonAliasingOn (List.map opIdent
      [.add ⟨"n", "p", "c", "i1", false, "v1", "w1", "o1", "a1"⟩,
       .add ⟨"n", "p", "c", "i2", true, "v2", "w2", "o2", "a2"⟩]) ∧
    atMostOnePerIdentity (runOps freshMetrics
      [.add ⟨"n", "p", "c", "i1", false, "v1", "w1", "o1", "a1"⟩,
       .add ⟨"n", "p", "c", "i2", true, "v2", "w2", "o2", "a2"⟩]) :=
  ⟨by unfold NonAliasingOn; decide,
    series_uniqueness_of_nonAliasing _ (by unfold NonAliasingOn; decide) _ []
      (List.append_nil _).symm⟩

/-! C4: the lock discipline of `AddImage`.  The source calls `m.RemoveImage`
(which takes and releases `m.mu` itself) *before* taking `m.mu` for the gauge
`Set` and the cache store, so the remove-then-set sequence spans two separate
critical sections, not one. -/

/-- The lock, cache and gauge actions of the metrics operations, in program
order. -/
inductive LockAction
  | lock
  | unlock
  | readCache
  | deleteSeriesAct
  | deleteCacheAct
  | setSeriesAct
  | storeCacheAct
deriving DecidableEq, Repr

/-- Program-order action trace of `RemoveImage`: `mu.Lock()`, the cache
lookup, on a hit the series delete and the cache delete, then the deferred
`mu.Unlock()`; `found` says whether the cache lookup hits. -/
def removeImageTrace (found : Bool) : List LockAction :=
  [.lock, .readCache] ++
    (if found then [.deleteSeriesAct, .deleteCacheAct] else []) ++ [.unlock]

/-- Program-order action trace of `AddImage`: the `RemoveImage` call runs
first — taking and releasing the lock — and only then does `AddImage` take
the lock for the gauge `Set` and the cache store. -/
def addImageTrace (found : Bool) : List LockAction :=
  removeImageTrace found ++ [.lock, .setSeriesAct, .storeCacheAct, .unlock]

def lockStep (d : Nat) : LockAction → Nat
  | .lock => d + 1
  | .unlock => d - 1
  | _ => d

/-- Net lock depth after executing a trace from depth 0. -/
def lockDepth (t : List LockAction) : Nat := t.foldl lockStep 0

/-- The claim's property: the process-wide lock is held at every point from
position `i` through position `j` of the trace. -/
def lockHeldThroughout (t : List LockAction) (i j : Nat) : Prop :=
  ∀ k, i ≤ k → k ≤ j → 0 < lockDepth (t.take k)

/-- Checks that every cache/gauge action in the trace executes at positive
lock depth. -/
def underLockOk (d : Nat) : List LockAction → Bool
  | [] => true
  | .lock :: rest => underLockOk (d + 1) rest
  | .unlock :: rest => underLockOk (d - 1) rest
  | _ :: rest => decide (0 < d) && underLockOk d rest

/-- Counterexample to C4 as stated: in `AddImage`'s trace (cache hit case)
the delete phase ends at position 3 and the gauge `Set` happens at position
6, but after position 4 (`RemoveImage`'s deferred unlock) the lock depth is
0, so the lock is not held continuously across the remove-then-set
sequence. -/
theorem addImage_releases_lock_between_phases :
    (addImageTrace true).get? 3 = some .deleteCacheAct ∧
    (addImageTrace true).get? 6 = some .setSeriesAct ∧
    lockDepth ((addImageTrace true).take 5) = 0 ∧
    ¬ lockHeldThroughout (addImageTrace true) 3 6 := by
  refine ⟨by decide, by decide, by decide, ?_⟩
  intro h
  have h5 := h 5 (by decide) (by decide)
  have h0 : lockDepth ((addImageTrace true).take 5) = 0 := by decide
  rw [h0] at h5
  exact absurd h5 (by decide)

/-- C4 (amended): every cache and gauge action of `AddImage` executes while
holding the lock, but `AddImage` consists of two disjoint critical sections —
`RemoveImage`'s and its own — with the lock depth returning to zero between
the remove phase and the set phase. -/
theorem addImage_two_critical_sections :
    ∀ found : Bool,
      underLockOk 0 (addImageTrace found) = true ∧
      addImageTrace found =
        removeImageTrace found ++
          [.lock, .setSeriesAct, .storeCacheAct, .unlock] ∧
      lockDepth (removeImageTrace found) = 0 ∧
      lockDepth (addImageTrace found) = 0 := by
  intro found
  cases found <;> exact ⟨by decide, rfl, by decide, by decide⟩

/-! Part 2: `pkg/client/docker/manifest/manifest.go`.

Response headers are modelled as association lists keyed by canonical MIME
header keys, as Go's `net/http` stores them; `Header.Get` canonicalises its
argument and returns `""` for an absent key.  `fmt`'s `%q` verb
(`strconv.Quote`) is modelled by `goQuote`; non-ASCII code points are kept
literal (Go additionally escapes the rare non-printable ones, which no input
below contains). -/

/-- Valid MIME header field byte per Go's `textproto`: alphanumerics and
the characters of the set written as codes
33 35 36 37 38 39 42 43 45 46 94 95 96 124 126. -/
def isHeaderTokenChar (c : Char) : Bool :=
  c.isAlphanum ||
    [33, 35, 36, 37, 38, 39, 42, 43, 45, 46, 94, 95, 96, 124, 126].contains
      c.toNat

def canonChars (up : Bool) : List Char → List Char
  | [] => []
  | c :: rest =>
    (if up then c.toUpper else c.toLower) :: canonChars (c == '-') rest

/-- Go's `textproto.CanonicalMIMEHeaderKey`: uppercase the first letter and
every letter after a hyphen, lowercase the rest; keys containing an invalid
byte are returned unchanged. -/
def canonicalMIMEHeaderKey (s : String) : String :=
  if s.data.all isHeaderTokenChar then String.mk (canonChars true s.data)
  else s

/-- Go's `http.Header.Get`: canonicalise the key, return the first stored
value, or `""` when absent. -/
def headerGet (hs : List (String × String)) (k : String) : String :=
  match hs.lookup (canonicalMIMEHeaderKey k) with
  | some v => v
  | none => ""

/-- The parts of an HTTP response that `Digest`'s response handling reads. -/
structure HttpResponse where
  statusCode : Nat
  status : String
  headers : List (String × String)

def hexLowerDigit (n : Nat) : Char :=
  if n < 10 then Char.ofNat (48 + n) else Char.ofNat (87 + n)

/-- Escaping of one character under Go's `strconv.Quote` (the `%q` verb):
the quote and backslash get a backslash escape, printable ASCII stays
literal, named control escapes and `\x` hex escapes cover the rest of
ASCII. -/
def goQuoteChar (c : Char) : List Char :=
  if c.toNat = 34 then ['\\', '"']
  else if c.toNat = 92 then ['\\', '\\']
  else if 32 ≤ c.toNat ∧ c.toNat ≤ 126 then [c]
  else if c.toNat = 7 then ['\\', 'a']
  else if c.toNat = 8 then ['\\', 'b']
  else if c.toNat = 12 then ['\\', 'f']
  else if c.toNat = 10 then ['\\', 'n']
  else if c.toNat = 13 then ['\\', 'r']
  else if c.toNat = 9 then ['\\', 't']
  else if c.toNat = 11 then ['\\', 'v']
  else if c.toNat < 32 ∨ c.toNat = 127 then
    ['\\', 'x', hexLowerDigit (c.toNat / 16), hexLowerDigit (c.toNat % 16)]
  else [c]

/-- Go's `%q` on a string: surrounding quotes plus per-character escaping. -/
def goQuote (s : String) : String :=
  String.mk ('"' :: (s.data.map goQuoteChar).flatten ++ ['"'])

/-- The response handling of `Digest` (manifest.go lines 74-85): on a
non-200 status build the error
`registry responded to head request to %s with %q, auth: %q`, substituting
`not present` for an absent `www-authenticate` header; on 200 return the
`Docker-Content-Digest` header (possibly `""`). -/
def digestFromResponse (url : String) (res : HttpResponse) :
    Except String String :=
  if res.statusCode ≠ 200 then
    Except.error ("registry responded to head request to " ++ url ++ " with "
      ++ goQuote res.status ++ ", auth: " ++
      goQuote (if headerGet res.headers "www-authenticate" = "" then
        "not present" else headerGet res.headers "www-authenticate"))
  else
    Except.ok (headerGet res.headers "Docker-Content-Digest")

/-! Substring machinery used to state "the message contains ... verbatim". -/

def charsMatchAt : List Char → List Char → Bool
  | [], _ => true
  | _ :: _, [] => false
  | p :: ps, c :: cs => p == c && charsMatchAt ps cs

def charsContain (pat : List Char) : List Char → Bool
  | [] => pat.isEmpty
  | c :: cs => charsMatchAt pat (c :: cs) || charsContain pat cs

/-- `pat` occurs verbatim as a contiguous substring of `s`. -/
def strContainsStr (s pat : String) : Bool := charsContain pat.data s.data

theorem charsMatchAt_self_append (pat rest : List Char) :
    charsMatchAt pat (pat ++ rest) = true := by
  induction pat with
  | nil => rfl
  | cons p ps ih => simp [charsMatchAt, ih]

theorem charsContain_nil_pat (l : List Char) : charsContain [] l = true := by
  cases l <;> simp [charsContain, charsMatchAt]

theorem charsContain_parts (pat x y : List Char) :
    charsContain pat (x ++ pat ++ y) = true := by
  induction x with
  | nil =>
    cases pat with
    | nil => simpa using charsContain_nil_pat y
    | cons p ps =>
      show charsContain (p :: ps) (p :: (ps ++ y)) = true
      simp only [charsContain]
      have hm : charsMatchAt (p :: ps) (p :: (ps ++ y)) = true :=
        charsMatchAt_self_append (p :: ps) y
      rw [hm]
      simp
  | cons c cs ih =>
    show charsContain pat (c :: (cs ++ pat ++ y)) = true
    simp only [charsContain]
    rw [ih]
    simp

theorem charsMatchAt_mono (pat l y : List Char)
    (h : charsMatchAt pat l = true) : charsMatchAt pat (l ++ y) = true := by
  induction pat generalizing l with
  | nil => rfl
  | cons p ps ih =>
    cases l with
    | nil => exact absurd h (by simp [charsMatchAt])
    | cons c cs =>
      simp only [charsMatchAt, Bool.and_eq_true] at h
      simp only [List.cons_append, charsMatchAt, Bool.and_eq_true]
      exact ⟨h.1, ih cs h.2⟩

theorem charsContain_mono_right (pat l y : List Char)
    (h : charsContain pat l = true) : charsContain pat (l ++ y) = true := by
  induction l with
  | nil =>
    have : pat = [] := by
      cases pat with
      | nil => rfl
      | cons p ps => exact absurd h (by simp [charsContain, List.isEmpty])
    subst this
    exact charsContain_nil_pat y
  | cons c cs ih =>
    simp only [charsContain, Bool.or_eq_true] at h
    rcases h with h | h
    · show (charsMatchAt pat (c :: (cs ++ y)) ||
        charsContain pat (cs ++ y)) = true
      have hm : charsMatchAt pat (c :: (cs ++ y)) = true :=
        charsMatchAt_mono pat (c :: cs) y h
      rw [hm]
      simp
    · show (charsMatchAt pat (c :: (cs ++ y)) ||
        charsContain pat (cs ++ y)) = true
      rw [ih h]
      simp

theorem charsContain_mono_left (pat x l : List Char)
    (h : charsContain pat l = true) : charsContain pat (x ++ l) = true := by
  induction x with
  | nil => exact h
  | cons c cs ih =>
    simp only [List.cons_append, charsContain, Bool.or_eq_true]
    exact Or.inr ih

theorem strData_append (a b : String) : (a ++ b).data = a.data ++ b.data := by
  cases a
  cases b
  rfl

theorem strContainsStr_parts (a s b : String) :
    strContainsStr (a ++ s ++ b) s = true := by
  unfold strContainsStr
  rw [strData_append, strData_append]
  exact charsContain_parts s.data a.data b.data

theorem strContainsStr_mono_right (s pat y : String)
    (h : strContainsStr s pat = true) : strContainsStr (s ++ y) pat = true := by
  unfold strContainsStr at h ⊢
  rw [strData_append]
  exact charsContain_mono_right _ _ _ h

theorem strContainsStr_mono_left (s pat x : String)
    (h : strContainsStr s pat = true) : strContainsStr (x ++ s) pat = true := by
  unfold strContainsStr at h ⊢
  rw [strData_append]
  exact charsContain_mono_left _ _ _ h

/-! Characters that Go's quoting leaves unchanged. -/

def plainChar (c : Char) : Bool :=
  decide (32 ≤ c.toNat ∧ c.toNat ≤ 126 ∧ c.toNat ≠ 34 ∧ c.toNat ≠ 92)

def plainStr (s : String) : Bool := s.data.all plainChar

theorem goQuoteChar_plain {c : Char} (h : plainChar c = true) :
    goQuoteChar c = [c] := by
  have h' := of_decide_eq_true h
  obtain ⟨h1, h2, h3, h4⟩ := h'
  unfold goQuoteChar
  rw [if_neg h3, if_neg h4, if_pos ⟨h1, h2⟩]

theorem joinQuote_plain (l : List Char) (h : l.all plainChar = true) :
    (l.map goQuoteChar).flatten = l := by
  induction l with
  | nil => rfl
  | cons c cs ih =>
    simp only [List.all_cons, Bool.and_eq_true] at h
    simp only [List.map_cons, List.flatten_cons, goQuoteChar_plain h.1,
      ih h.2, List.singleton_append]

theorem goQuote_plain {s : String} (h : plainStr s = true) :
    goQuote s = "\"" ++ s ++ "\"" := by
  cases s with
  | mk d =>
    unfold goQuote
    rw [joinQuote_plain d h]
    rfl

/-- Counterexample to C5 as stated: a `www-authenticate` value containing a
double quote (the usual `realm="..."` form) is rendered by `%q` with
backslash escapes, so the error message does not contain the header value
verbatim. -/
theorem manifestError_not_verbatim_on_quoted_header :
    headerGet [("Www-Authenticate", "Bearer realm=\"token\"")]
        "www-authenticate" = "Bearer realm=\"token\"" ∧
    ∃ msg : String,
      digestFromResponse "u"
        ⟨401, "401 Unauthorized",
          [("Www-Authenticate", "Bearer realm=\"token\"")]⟩ =
        Except.error msg ∧
      strContainsStr msg "Bearer realm=\"token\"" = false := by
  refine ⟨by decide, ⟨_, rfl, by decide⟩⟩

/-- C5 (amended): every non-200 response produces an error message carrying
the Go-quoted status and `www-authenticate` value; whenever those values
contain only printable ASCII without quote or backslash they appear verbatim,
and when the header is absent the literal `not present` appears. -/
theorem manifestError_contains_status_and_auth (url : String)
    (res : HttpResponse) (h200 : res.statusCode ≠ 200) :
    ∃ msg : String, digestFromResponse url res = Except.error msg ∧
      (plainStr res.status = true → strContainsStr msg res.status = true) ∧
      (plainStr (if headerGet res.headers "www-authenticate" = "" then
          "not present" else headerGet res.headers "www-authenticate") =
          true →
        strContainsStr msg
          (if headerGet res.headers "www-authenticate" = "" then
            "not present" else headerGet res.headers "www-authenticate") =
          true) ∧
      (headerGet res.headers "www-authenticate" = "" →
        strContainsStr msg "not present" = true) := by
  refine ⟨_, by unfold digestFromResponse; rw [if_pos h200], ?_, ?_, ?_⟩
  · intro hplain
    apply strContainsStr_mono_right
    apply strContainsStr_mono_right
    rw [goQuote_plain hplain]
    exact strContainsStr_mono_left _ _ _
      (strContainsStr_parts "\"" res.status "\"")
  · intro hplain
    apply strContainsStr_mono_left
    rw [goQuote_plain hplain]
    exact strContainsStr_parts "\"" _ "\""
  · intro habs
    apply strContainsStr_mono_left
    rw [habs]
    have hplain : plainStr "not present" = true := by decide
    rw [if_pos rfl, goQuote_plain hplain]
    exact strContainsStr_parts "\"" "not present" "\""

/-- Witness for the amended C5: a concrete 401 response with no
`www-authenticate` header. -/
theorem manifestError_contains_status_and_auth_witness :
    (401 : Nat) ≠ 200 ∧
    ∃ msg : String,
      digestFromResponse "u" ⟨401, "401 Unauthorized", []⟩ =
        Except.error msg ∧
      (plainStr (HttpResponse.mk 401 "401 Unauthorized" []).status = true →
        strContainsStr msg
          (HttpResponse.mk 401 "401 Unauthorized" []).status = true) ∧
      (plainStr (if headerGet ([] : List (String × String))
            "www-authenticate" = "" then "not present"
          else headerGet ([] : List (String × String)) "www-authenticate") =
          true →
        strContainsStr msg
          (if headerGet ([] : List (String × String)) "www-authenticate" = ""
            then "not present"
            else headerGet ([] : List (String × String)) "www-authenticate") =
          true) ∧
      (headerGet ([] : List (String × String)) "www-authenticate" = "" →
        strContainsStr msg "not present" = true) :=
  ⟨by decide,
    manifestError_contains_status_and_auth "u" ⟨401, "401 Unauthorized", []⟩
      (by decide)⟩

/-- C7: on a 200 response `Digest` returns the `Docker-Content-Digest`
header with no error, and when that header is absent it returns the empty
string with no error. -/
theorem digest_success_returns_header (url : String) (res : HttpResponse)
    (h : res.statusCode = 200) :
    digestFromResponse url res =
      Except.ok (headerGet res.headers "Docker-Content-Digest") ∧
    (res.headers.lookup (canonicalMIMEHeaderKey "Docker-Content-Digest") =
        none →
      digestFromResponse url res = Except.ok "") := by
  constructor
  · unfold digestFromResponse
    rw [if_neg (not_not_intro h)]
  · intro hn
    unfold digestFromResponse
    rw [if_neg (not_not_intro h)]
    unfold headerGet
    rw [hn]

/-- Witness for C7: a concrete 200 response with no headers yields `ok ""`. -/
theorem digest_success_returns_header_witness :
    (200 : Nat) = 200 ∧
    digestFromResponse "u" ⟨200, "200 OK", []⟩ = Except.ok "" :=
  ⟨rfl, (digest_success_returns_header "u" ⟨200, "200 OK", []⟩ rfl).2 rfl⟩

/-! C6: `authUrl`.  The scope string is built by
`fmt.Sprintf` with repo and image substituted verbatim; it is stored as the
`scope` query parameter by `q.Set` and percent-encoded by `q.Encode()` (Go's
`url.QueryEscape` over the UTF-8 bytes), which the server's decoding inverts
exactly, so the scope value the token endpoint receives is the verbatim
string. -/

/-- The `scope` string of `getAuthToken`:
`fmt.Sprintf` of the pull scope for repo and image. -/
def authScope (repo image : String) : String :=
  "repository:" ++ repo ++ "/" ++ image ++ ":pull"

def tokenURL : String := "https://auth.docker.io/token"

/-- The `url.Values` built in `authUrl` after the two `q.Set` calls, listed
in `Encode`'s sorted key order (`scope` < `service`). -/
def authUrlValues (repo image : String) : List (String × String) :=
  [("scope", authScope repo image), ("service", "registry.docker.io")]

/-- The UTF-8 bytes of a string, as naturals below 256. -/
def strBytes (s : String) : List Nat := s.toUTF8.toList.map UInt8.toNat

/-- Bytes Go's `url.QueryEscape` leaves unescaped: alphanumerics and
`-`, `.`, `_`, `~`. -/
def isQueryUnreserved (b : Nat) : Bool :=
  decide ((48 ≤ b ∧ b ≤ 57) ∨ (65 ≤ b ∧ b ≤ 90) ∨ (97 ≤ b ∧ b ≤ 122) ∨
    b = 45 ∨ b = 46 ∨ b = 95 ∨ b = 126)

def hexUpperDigit (n : Nat) : Char :=
  if n < 10 then Char.ofNat (48 + n) else Char.ofNat (55 + n)

/-- One byte under Go's query escaping: unreserved bytes stay literal, space
becomes `+`, everything else becomes `%XX` with uppercase hex. -/
def goQueryEscapeByte (b : Nat) : List Char :=
  if isQueryUnreserved b then [Char.ofNat b]
  else if b = 32 then ['+']
  else ['%', hexUpperDigit (b / 16), hexUpperDigit (b % 16)]

def goQueryEscape (bs : List Nat) : List Char :=
  (bs.map goQueryEscapeByte).flatten

/-- Go's `unhex`: value of one hex digit in either case. -/
def hexDigitVal (c : Char) : Option Nat :=
  if 48 ≤ c.toNat ∧ c.toNat ≤ 57 then some (c.toNat - 48)
  else if 97 ≤ c.toNat ∧ c.toNat ≤ 102 then some (c.toNat - 87)
  else if 65 ≤ c.toNat ∧ c.toNat ≤ 70 then some (c.toNat - 55)
  else none

/-- Query unescaping as the receiver performs it: `%XX` decodes, `+` becomes
space, other characters are taken literally. -/
def goQueryUnescape : List Char → Option (List Nat)
  | [] => some []
  | c :: rest =>
    if c = '%' then
      match rest with
      | c1 :: c2 :: rest2 =>
        match hexDigitVal c1, hexDigitVal c2 with
        | some v1, some v2 =>
          (goQueryUnescape rest2).map fun bs => (16 * v1 + v2) :: bs
        | _, _ => none
      | _ => none
    else if c = '+' then (goQueryUnescape rest).map fun bs => 32 :: bs
    else (goQueryUnescape rest).map fun bs => c.toNat :: bs

/-- Go's `url.Values.Encode`: `key=value` pairs joined with `&`, keys and
values query-escaped. -/
def goURLValuesEncode (vs : List (String × String)) : String :=
  String.intercalate "&" (vs.map fun kv =>
    String.mk (goQueryEscape (strBytes kv.1)) ++ "=" ++
      String.mk (goQueryEscape (strBytes kv.2)))

/-- `authUrl` from manifest.go: the token URL carrying the encoded query. -/
def authUrl (repo image : String) : String :=
  tokenURL ++ "?" ++ goURLValuesEncode (authUrlValues repo image)

set_option maxRecDepth 8192 in
theorem unreserved_char_facts :
    ∀ b : Nat, b < 256 → isQueryUnreserved b = true →
      Char.ofNat b ≠ '%' ∧ Char.ofNat b ≠ '+' ∧ (Char.ofNat b).toNat = b := by
  decide

theorem hexDigitVal_upper : ∀ n : Nat, n < 16 →
    hexDigitVal (hexUpperDigit n) = some n := by
  decide

theorem goQueryUnescape_cons_other (c : Char) (rest : List Char)
    (h1 : c ≠ '%') (h2 : c ≠ '+') :
    goQueryUnescape (c :: rest) =
      (goQueryUnescape rest).map fun bs => c.toNat :: bs := by
  match rest with
  | [] => simp only [goQueryUnescape]; rw [if_neg h1, if_neg h2]
  | [d] => simp only [goQueryUnescape]; rw [if_neg h1, if_neg h2]
  | d :: e :: es => simp only [goQueryUnescape]; rw [if_neg h1, if_neg h2]

theorem goQueryUnescape_cons_plus (rest : List Char) :
    goQueryUnescape ('+' :: rest) =
      (goQueryUnescape rest).map fun bs => 32 :: bs := by
  match rest with
  | [] => simp [goQueryUnescape]
  | [d] => simp [goQueryUnescape]
  | d :: e :: es => simp [goQueryUnescape]

theorem goQueryUnescape_pct (c1 c2 : Char) (rest : List Char) :
    goQueryUnescape ('%' :: c1 :: c2 :: rest) =
      match hexDigitVal c1, hexDigitVal c2 with
      | some v1, some v2 =>
        (goQueryUnescape rest).map fun bs => (16 * v1 + v2) :: bs
      | _, _ => none := by
  simp only [goQueryUnescape]
  simp

theorem escByte_unescape (b : Nat) (hb : b < 256) (cs : List Char) :
    goQueryUnescape (goQueryEscapeByte b ++ cs) =
      (goQueryUnescape cs).map fun bs => b :: bs := by
  unfold goQueryEscapeByte
  by_cases hu : isQueryUnreserved b = true
  · rw [if_pos hu]
    obtain ⟨h1, h2, h3⟩ := unreserved_char_facts b hb hu
    show goQueryUnescape (Char.ofNat b :: cs) = _
    rw [goQueryUnescape_cons_other (Char.ofNat b) cs h1 h2, h3]
  · rw [if_neg hu]
    by_cases h32 : b = 32
    · rw [if_pos h32]
      subst h32
      show goQueryUnescape ('+' :: cs) = _
      rw [goQueryUnescape_cons_plus]
    · rw [if_neg h32]
      show goQueryUnescape
        ('%' :: hexUpperDigit (b / 16) :: hexUpperDigit (b % 16) :: cs) = _
      rw [goQueryUnescape_pct, hexDigitVal_upper (b / 16) (by omega),
        hexDigitVal_upper (b % 16) (by omega)]
      dsimp only
      simp only [Nat.div_add_mod]

theorem goQueryEscape_unescape (bs : List Nat) (h : ∀ b ∈ bs, b < 256) :
    goQueryUnescape (goQueryEscape bs) = some bs := by
  induction bs with
  | nil => rfl
  | cons b rest ih =>
    have hb : b < 256 := h b (List.mem_cons_self _ _)
    have hrest := ih fun x hx => h x (List.mem_cons_of_mem _ hx)
    show goQueryUnescape (goQueryEscapeByte b ++ goQueryEscape rest) =
      some (b :: rest)
    rw [escByte_unescape b hb, hrest]
    rfl

theorem strBytes_lt (s : String) : ∀ b ∈ strBytes s, b < 256 := by
  intro b hb
  unfold strBytes at hb
  rw [List.mem_map] at hb
  obtain ⟨u, _, rfl⟩ := hb
  exact u.val.isLt

/-- C6: the `scope` query parameter of `authUrl` is exactly
`repository:` ++ repo ++ `/` ++ image ++ `:pull` for all inputs, including
inputs containing `/`; the percent-encoding applied by `Encode` is inverted
exactly by query unescaping, so the scope value itself reaches the token
endpoint unaltered. -/
theorem authUrl_scope_exact (repo image : String) :
    (authUrlValues repo image).lookup "scope" = some (authScope repo image) ∧
    authScope repo image =
      "repository:" ++ repo ++ "/" ++ image ++ ":pull" ∧
    goQueryUnescape (goQueryEscape (strBytes (authScope repo image))) =
      some (strBytes (authScope repo image)) :=
  ⟨rfl, rfl, goQueryEscape_unescape _ (strBytes_lt _)⟩

/-! C10: credential handling of `getAuthToken` and `Digest`. -/

/-- `Options` from manifest.go. -/
structure Options where
  Username : String
  Password : String

/-- Standard base64 alphabet position `n`. -/
def base64Char (n : Nat) : Char :=
  if n < 26 then Char.ofNat (65 + n)
  else if n < 52 then Char.ofNat (71 + n)
  else if n < 62 then Char.ofNat (n - 4)
  else if n = 62 then '+'
  else '/'

/-- `base64.StdEncoding.EncodeToString` over byte values: three bytes become
four alphabet characters, with `=` padding for a final group of one or two
bytes. -/
def base64Encode : List Nat → List Char
  | [] => []
  | [b1] => [base64Char (b1 / 4), base64Char (b1 % 4 * 16), '=', '=']
  | [b1, b2] => [base64Char (b1 / 4), base64Char (b1 % 4 * 16 + b2 / 16),
      base64Char (b2 % 16 * 4), '=']
  | b1 :: b2 :: b3 :: rest =>
    base64Char (b1 / 4) :: base64Char (b1 % 4 * 16 + b2 / 16) ::
      base64Char (b2 % 16 * 4 + b3 / 64) :: base64Char (b3 % 64) ::
      base64Encode rest

def base64Std (s : String) : String := String.mk (base64Encode (strBytes s))

/-- The `Authorization` header `getAuthToken` attaches to the token request:
present — as HTTP Basic of `user:pass` — exactly when both `Username` and
`Password` are non-empty, per
`if c.Options.Username != "" && c.Options.Password != ""`. -/
def tokenRequestAuthHeader (o : Options) : Option String :=
  if o.Username ≠ "" ∧ o.Password ≠ "" then
    some ("Basic " ++ base64Std (o.Username ++ ":" ++ o.Password))
  else none

/-- The headers `Digest` adds to the manifest HEAD request. -/
def manifestRequestHeaders (token : String) : List (String × String) :=
  [("Authorization", "Bearer " ++ token),
   ("Accept", "application/vnd.docker.distribution.manifest.v2+json"),
   ("Accept", "application/vnd.docker.distribution.manifest.list.v2+json"),
   ("Accept", "application/vnd.docker.distribution.manifest.v1+json")]

/-- C10: Basic credentials go on the token request exactly when both
`Username` and `Password` are non-empty — with exactly one of them set the
token request has no `Authorization` header — and the manifest request's
only `Authorization` value is the Bearer token, which is never a Basic
credential. -/
theorem basic_auth_only_when_both_credentials (o : Options) :
    ((tokenRequestAuthHeader o).isSome = true ↔
      o.Username ≠ "" ∧ o.Password ≠ "") ∧
    (o.Username ≠ "" ∧ o.Password ≠ "" →
      tokenRequestAuthHeader o =
        some ("Basic " ++ base64Std (o.Username ++ ":" ++ o.Password))) ∧
    ((o.Username = "" ∨ o.Password = "") →
      tokenRequestAuthHeader o = none) ∧
    ∀ token : String,
      ((manifestRequestHeaders token).filter
          (fun kv => kv.1 == "Authorization")).map Prod.snd =
        ["Bearer " ++ token] ∧
      ∀ rest : String, "Bearer " ++ token ≠ "Basic " ++ rest := by
  refine ⟨?_, ?_, ?_, ?_⟩
  · unfold tokenRequestAuthHeader
    by_cases h : o.Username ≠ "" ∧ o.Password ≠ ""
    · rw [if_pos h]
      simpa using h
    · rw [if_neg h]
      simpa using h
  · intro h
    unfold tokenRequestAuthHeader
    rw [if_pos h]
  · intro h
    unfold tokenRequestAuthHeader
    rcases h with h | h
    · rw [if_neg fun hc => hc.1 h]
    · rw [if_neg fun hc => hc.2 h]
  · intro token
    refine ⟨rfl, ?_⟩
    intro rest h
    have h2 := congrArg String.data h
    rw [strData_append, strData_append] at h2
    have h3 : ('B' :: 'e' :: 'a' :: 'r' :: 'e' :: 'r' :: ' ' :: [])
        ++ token.data =
        ('B' :: 'a' :: 's' :: 'i' :: 'c' :: ' ' :: []) ++ rest.data := h2
    simp only [List.cons_append] at h3
    injection h3 with _ h4
    injection h4 with h5 _
    exact absurd h5 (by decide)

/-- Witness for C10: with both credentials set, the token request carries the
Basic header. -/
theorem basic_auth_only_when_both_credentials_witness :
    (("user" : String) ≠ "" ∧ ("pass" : String) ≠ "") ∧
    tokenRequestAuthHeader ⟨"user", "pass"⟩ =
      some ("Basic " ++ base64Std ("user" ++ ":" ++ "pass")) :=
  ⟨by decide,
    (basic_auth_only_when_both_credentials ⟨"user", "pass"⟩).2.1 (by decide)⟩

end VersionChecker
